import Mathlib

/-!
Verification of `gen_qr_urls.py` (Garsone-Core).

Shallow embedding conventions:
* Python strings are `List Char` (`PyStr`).
* The output file is `Option (List PyStr)`: `none` means no file exists at
  the path, `some lines` means the file exists and consists of the given
  lines (one code per line; `generate` writes `code + "\n"`).
* The random source `secrets.randbits (5 * n)` is modelled by an explicit
  natural number `value < 2 ^ (5 * n)`; a whole run of `generate` takes the
  list of values produced by the successive `secrets.randbits 40` calls.
  A run that exhausts its list of draws before collecting `count` fresh
  codes is an unfinished execution and is modelled as `none`.
-/

abbrev PyStr := List Char

/-- The Crockford Base32 alphabet of the source: `"0123456789ABCDEFGHJKMNPQRSTVWXYZ"`. -/
def CROCKFORD32 : PyStr := "0123456789ABCDEFGHJKMNPQRSTVWXYZ".toList

/-- Low-to-high digit extraction loop of `random_crockford`: each step takes
`value & 0b11111` as index into `CROCKFORD32` and shifts `value` right by 5. -/
def rc_digits : Nat → Nat → List Char
  | 0, _ => []
  | n + 1, value => CROCKFORD32.getD (value % 32) ' ' :: rc_digits n (value / 32)

/-- Embedding of `random_crockford`: the extracted characters are reversed
before joining, so the most significant base-32 digit comes first. -/
def random_crockford (n_chars : Nat) (value : Nat) : PyStr :=
  (rc_digits n_chars value).reverse

/-- Embedding of `format_gt`: `f"GT-{code8[:4]}-{code8[4:]}"`. -/
def format_gt (code8 : PyStr) : PyStr :=
  "GT-".toList ++ code8.take 4 ++ "-".toList ++ code8.drop 4

/-- Python `s.startswith(pre)`. -/
def py_startswith : PyStr → PyStr → Bool
  | _, [] => true
  | [], _ :: _ => false
  | c :: s, p :: ps => c == p && py_startswith s ps

/-- Python `line.strip()`: remove whitespace from both ends. -/
def pyStrip (s : PyStr) : PyStr :=
  ((s.dropWhile Char.isWhitespace).reverse.dropWhile Char.isWhitespace).reverse

/-- The per-line normalisation of `load_existing`: `line.strip().upper()`. -/
def process_line (line : PyStr) : PyStr :=
  (pyStrip line).map Char.toUpper

/-- The shape check of `load_existing`:
`s.startswith("GT-") and len(s) == 11`. -/
def line_ok (s : PyStr) : Bool :=
  py_startswith s ("GT-".toList) && s.length == 11

/-- One iteration of the `for line in f` loop of `load_existing`. -/
def load_step (existing : Finset PyStr) (line : PyStr) : Finset PyStr :=
  let s := process_line line
  if line_ok s then insert s existing else existing

/-- Embedding of `load_existing`: a missing file yields the empty set,
otherwise each line is stripped, uppercased and kept when it passes the
shape check. -/
def load_existing : Option (List PyStr) → Finset PyStr
  | none => ∅
  | some lines => lines.foldl load_step ∅

/-- The `while len(new_codes) < count` loop of `generate`, consuming one
random draw per iteration; `none` when the draws run out before the loop
finishes. -/
def genLoop (count : Int) : List Nat → Finset PyStr → List PyStr → Option (List PyStr)
  | draws, existing, new_codes =>
    if (new_codes.length : Int) < count then
      match draws with
      | [] => none
      | v :: rest =>
        let code := format_gt (random_crockford 8 v)
        if code ∈ existing then
          genLoop count rest existing new_codes
        else
          genLoop count rest (insert code existing) (new_codes ++ [code])
    else
      some new_codes

/-- The append phase of `generate` (lines 62-64): `open(out_path, "a")`
creates the file when absent and appends one line per code. -/
def append_codes (file : Option (List PyStr)) (codes : List PyStr) : List PyStr :=
  file.getD [] ++ codes

/-- Embedding of `generate`: load the existing set, run the collision-retry
loop, append the accepted batch.  The result carries the list of new codes
and the file content after the run. -/
def generate (count : Int) (file : Option (List PyStr)) (draws : List Nat) :
    Option (List PyStr × List PyStr) :=
  (genLoop count draws (load_existing file) []).map
    (fun new_codes => (new_codes, append_codes file new_codes))

/-- MSB-first base-32 reading of a string, using the position of each
character in `CROCKFORD32` as its digit value. -/
def alphaIdx (c : Char) : Nat :=
  CROCKFORD32.findIdx (fun x => x == c)

/-- Decode a string as a base-32 numeral, most significant digit first. -/
def decode32 (s : PyStr) : Nat :=
  s.foldl (fun acc c => 32 * acc + alphaIdx c) 0

/-- The semantics of the file-format regex `GT-[A-Z0-9]{4}-[A-Z0-9]{4}`
over the 32-symbol alphabet. -/
def matches_gt (s : PyStr) : Prop :=
  ∃ a b : List Char, a.length = 4 ∧ b.length = 4 ∧
    (∀ c ∈ a, c ∈ CROCKFORD32) ∧ (∀ c ∈ b, c ∈ CROCKFORD32) ∧
    s = "GT-".toList ++ a ++ "-".toList ++ b

/-- C8: `load_existing` on a nonexistent path returns the empty set (the
`os.path.exists` guard returns early; no error is possible). -/
theorem load_existing_none_eq_empty : load_existing none = (∅ : Finset PyStr) := rfl

/-- C2: the claim says `load_existing` on the three lines `GT-ABCD-1234`,
`bad-line`, `GT-ABCD-12` returns `{GT-ABCD-1234}`; in fact it returns the
empty set, because `GT-ABCD-1234` has 12 characters while the shape check
of `load_existing` demands length exactly 11 — the very length produced by
`format_gt` for every generated code. -/
theorem load_existing_three_lines_empty :
    load_existing (some ["GT-ABCD-1234".toList, "bad-line".toList, "GT-ABCD-12".toList])
      = (∅ : Finset PyStr) := by
  decide

/-- C1: the duplicate guard across runs is broken: all generated codes have
12 characters, `load_existing` keeps only lines of length 11, so a second
run reloads nothing and can reproduce a first-run code.  Concretely, with
the random source yielding 0 in both runs, both runs emit `GT-0000-0000`. -/
theorem generate_rerun_repeats_code :
    generate 1 none [0]
        = some (["GT-0000-0000".toList], ["GT-0000-0000".toList])
      ∧ generate 1 (some ["GT-0000-0000".toList]) [0]
        = some (["GT-0000-0000".toList],
            ["GT-0000-0000".toList, "GT-0000-0000".toList])
      ∧ "GT-0000-0000".toList ∈ ["GT-0000-0000".toList] := by
  decide

/-- Cons normal form of `format_gt`, exposing the literal characters. -/
lemma format_gt_eq_cons (s : PyStr) :
    format_gt s = 'G' :: 'T' :: '-' :: (s.take 4 ++ '-' :: s.drop 4) := by
  show (['G', 'T', '-'] ++ s.take 4 ++ ['-'] ++ s.drop 4 : List Char) = _
  simp [List.append_assoc]

/-- C3 counterexample: an 8-symbol input is formatted into 12 characters,
not 11 as the claim states (`GT-` plus four symbols plus `-` plus four
symbols makes 12). -/
theorem format_gt_not_len_11 :
    ("ABCD2345".toList).length = 8 ∧ (format_gt "ABCD2345".toList).length ≠ 11 := by
  decide

/-- C3 (amended): `format_gt` applied to a string of length 8 returns a
12-character string consisting of the literal `GT-`, the first four input
symbols, a hyphen, and the last four input symbols. -/
theorem format_gt_shape (s : PyStr) (h : s.length = 8) :
    (format_gt s).length = 12
      ∧ format_gt s = 'G' :: 'T' :: '-' :: (s.take 4 ++ '-' :: s.drop 4)
      ∧ (s.take 4).length = 4
      ∧ (s.drop 4).length = 4
      ∧ s.take 4 ++ s.drop 4 = s := by
  refine ⟨?_, format_gt_eq_cons s, ?_, ?_, List.take_append_drop 4 s⟩
  · simp [format_gt, h]
  · simp [List.length_take, h]
  · simp [List.length_drop, h]

/-- Closed instance for `format_gt_shape`, at input `ABCD2345`. -/
theorem format_gt_shape_witness :
    ("ABCD2345".toList).length = 8 ∧ (format_gt "ABCD2345".toList).length = 12 :=
  ⟨by decide, (format_gt_shape ("ABCD2345".toList) (by decide)).1⟩

/-- C6: `format_gt` is injective on strings of length exactly 8. -/
theorem format_gt_inj (s₁ s₂ : PyStr) (h₁ : s₁.length = 8) (h₂ : s₂.length = 8)
    (h : format_gt s₁ = format_gt s₂) : s₁ = s₂ := by
  rw [format_gt_eq_cons s₁, format_gt_eq_cons s₂] at h
  injection h with _ h
  injection h with _ h
  injection h with _ h
  have hlen : (s₁.take 4).length = (s₂.take 4).length := by
    simp [List.length_take, h₁, h₂]
  obtain ⟨hTake, hRest⟩ := List.append_inj h hlen
  injection hRest with _ hDrop
  calc s₁ = s₁.take 4 ++ s₁.drop 4 := (List.take_append_drop 4 s₁).symm
    _ = s₂.take 4 ++ s₂.drop 4 := by rw [hTake, hDrop]
    _ = s₂ := List.take_append_drop 4 s₂

/-- Closed instance for `format_gt_inj`. -/
theorem format_gt_inj_witness :
    ("ABCD2345".toList).length = 8 ∧ ("ABCD2345".toList : PyStr) = "ABCD2345".toList :=
  ⟨by decide, format_gt_inj ("ABCD2345".toList) ("ABCD2345".toList) (by decide) (by decide) rfl⟩

/-- C7: appending two batches in succession leaves the prior content as an
unchanged initial segment, followed by the first batch and then the second,
one code per line; nothing is rewritten or deleted. -/
theorem append_codes_twice (file : Option (List PyStr)) (codes₁ codes₂ : List PyStr) :
    append_codes (some (append_codes file codes₁)) codes₂
        = file.getD [] ++ (codes₁ ++ codes₂)
      ∧ (append_codes (some (append_codes file codes₁)) codes₂).take (file.getD []).length
        = file.getD []
      ∧ (append_codes (some (append_codes file codes₁)) codes₂).drop (file.getD []).length
        = codes₁ ++ codes₂ := by
  refine ⟨by simp [append_codes, List.append_assoc], ?_, ?_⟩
  · simp [append_codes, List.append_assoc, List.take_left]
  · simp [append_codes, List.append_assoc, List.drop_left]

/-- Any nonpositive count makes the generation loop exit at once: no codes
are produced and the file content is exactly the prior content (an empty
file when none existed, created by opening in append mode). -/
lemma generate_eq_of_nonpos (count : Int) (file : Option (List PyStr)) (draws : List Nat)
    (h : count ≤ 0) : generate count file draws = some ([], file.getD []) := by
  have hlt : ¬ ((0 : Int) < count) := by omega
  rw [generate, genLoop.eq_def]
  simp [hlt, append_codes]

/-- C9: for `count ≤ 0` the result sequence is empty and the file keeps
exactly its prior content (zero writes). -/
theorem generate_nonpos_count (count : Int) (file : Option (List PyStr)) (draws : List Nat)
    (h : count ≤ 0) : generate count file draws = some ([], file.getD []) :=
  generate_eq_of_nonpos count file draws h

/-- Closed instance for `generate_nonpos_count` at count 0 and count -1. -/
theorem generate_nonpos_count_witness :
    (0 : Int) ≤ 0 ∧ generate 0 (some [['A']]) [5] = some ([], [['A']]) :=
  ⟨le_refl 0, generate_nonpos_count 0 (some [['A']]) [5] (le_refl 0)⟩

/-- C10: for `count ≤ 0`, running `generate` against a missing file creates
an empty file (append-mode open creates it), and running it against an
existing file leaves the content unchanged. -/
theorem generate_nonpos_file_effect (count : Int) (draws : List Nat) (h : count ≤ 0) :
    generate count none draws = some ([], [])
      ∧ ∀ prior : List PyStr, generate count (some prior) draws = some ([], prior) :=
  ⟨generate_eq_of_nonpos count none draws h,
    fun prior => generate_eq_of_nonpos count (some prior) draws h⟩

/-- Closed instance for `generate_nonpos_file_effect` at count -1. -/
theorem generate_nonpos_file_effect_witness :
    (-1 : Int) ≤ 0
      ∧ generate (-1) none [] = some ([], [])
      ∧ generate (-1) (some [['B']]) [] = some ([], [['B']]) :=
  ⟨by decide, (generate_nonpos_file_effect (-1) [] (by decide)).1,
    (generate_nonpos_file_effect (-1) [] (by decide)).2 [['B']]⟩

lemma rc_digits_length (n v : Nat) : (rc_digits n v).length = n := by
  induction n generalizing v with
  | zero => rfl
  | succ n ih => simp [rc_digits, ih]

lemma crockford_getD_mem (d : Nat) (h : d < 32) : CROCKFORD32.getD d ' ' ∈ CROCKFORD32 := by
  revert d
  decide

lemma rc_digits_mem (n v : Nat) : ∀ c ∈ rc_digits n v, c ∈ CROCKFORD32 := by
  induction n generalizing v with
  | zero => simp [rc_digits]
  | succ n ih =>
    intro c hc
    rw [rc_digits, List.mem_cons] at hc
    rcases hc with h | h
    · exact h ▸ crockford_getD_mem _ (Nat.mod_lt _ (by norm_num))
    · exact ih _ c h

lemma random_crockford_length (n v : Nat) : (random_crockford n v).length = n := by
  simp [random_crockford, rc_digits_length]

lemma random_crockford_mem (n v : Nat) : ∀ c ∈ random_crockford n v, c ∈ CROCKFORD32 :=
  fun c hc => rc_digits_mem n v c (List.mem_reverse.mp hc)

lemma alphaIdx_getD (d : Nat) (h : d < 32) : alphaIdx (CROCKFORD32.getD d ' ') = d := by
  revert d
  decide

lemma decode32_append_one (l : List Char) (c : Char) :
    decode32 (l ++ [c]) = 32 * decode32 l + alphaIdx c := by
  simp [decode32, List.foldl_append]

lemma decode32_random_crockford (n v : Nat) :
    decode32 (random_crockford n v) = v % 32 ^ n := by
  induction n generalizing v with
  | zero => simp [random_crockford, rc_digits, decode32, Nat.mod_one]
  | succ n ih =>
    have hsplit : random_crockford (n + 1) v
        = random_crockford n (v / 32) ++ [CROCKFORD32.getD (v % 32) ' '] := by
      simp [random_crockford, rc_digits]
    rw [hsplit, decode32_append_one, ih, alphaIdx_getD _ (Nat.mod_lt _ (by norm_num))]
    rw [pow_succ', Nat.mod_mul]
    omega

/-- C5: on a random value `v < 2 ^ (5 n)`, `random_crockford n v` is the
length-`n` base-32 numeral of `v` over the Crockford alphabet, most
significant digit first: every character belongs to the alphabet and
reading the string back as a base-32 number recovers `v`. -/
theorem random_crockford_base32 (n v : Nat) (_hn : 1 ≤ n) (hv : v < 2 ^ (5 * n)) :
    (random_crockford n v).length = n
      ∧ (∀ c ∈ random_crockford n v, c ∈ CROCKFORD32)
      ∧ decode32 (random_crockford n v) = v := by
  refine ⟨random_crockford_length n v, random_crockford_mem n v, ?_⟩
  rw [decode32_random_crockford, Nat.mod_eq_of_lt]
  calc v < 2 ^ (5 * n) := hv
    _ = 32 ^ n := by rw [pow_mul]; norm_num

/-- Closed instance for `random_crockford_base32` at `n = 2`, `v = 33`. -/
theorem random_crockford_base32_witness :
    1 ≤ 2 ∧ 33 < 2 ^ (5 * 2) ∧ decode32 (random_crockford 2 33) = 33 :=
  ⟨by decide, by decide, (random_crockford_base32 2 33 (by decide) (by decide)).2.2⟩

/-- Every code emitted by the generator matches the file-format regex
`GT-[A-Z0-9]{4}-[A-Z0-9]{4}` over the 32-symbol alphabet. -/
lemma format_rc_matches (v : Nat) : matches_gt (format_gt (random_crockford 8 v)) := by
  refine ⟨(random_crockford 8 v).take 4, (random_crockford 8 v).drop 4, ?_, ?_, ?_, ?_, rfl⟩
  · simp [List.length_take, random_crockford_length]
  · simp [List.length_drop, random_crockford_length]
  · exact fun c hc => random_crockford_mem 8 v c (List.take_subset 4 _ hc)
  · exact fun c hc => random_crockford_mem 8 v c (List.drop_subset 4 _ hc)

/-- Invariant of the collision-retry loop: on successful termination the
result extends the accumulator with fresh, pairwise-distinct codes all of
which come from the draw list, and the result length is `count` (or the
accumulator length when that is already enough). -/
lemma genLoop_spec (count : Int) :
    ∀ (draws : List Nat) (existing : Finset PyStr) (acc out : List PyStr),
      genLoop count draws existing acc = some out →
      ∃ extra : List PyStr,
        out = acc ++ extra
          ∧ extra.Nodup
          ∧ (∀ c ∈ extra, c ∉ existing)
          ∧ (∀ c ∈ extra, ∃ v ∈ draws, c = format_gt (random_crockford 8 v))
          ∧ out.length = max acc.length count.toNat := by
  intro draws
  induction draws with
  | nil =>
    intro existing acc out h
    replace h : (if ((acc.length : Nat) : Int) < count then none else some acc) = some out := h
    by_cases hc : ((acc.length : Int) < count)
    · rw [if_pos hc] at h
      exact absurd h (by simp)
    · rw [if_neg hc] at h
      refine ⟨[], by simpa using (Option.some_injective _ h).symm, List.nodup_nil,
        by simp, by simp, ?_⟩
      have hle : count.toNat ≤ acc.length := by omega
      rw [← (Option.some_injective _ h), Nat.max_eq_left hle]
  | cons v rest ih =>
    intro existing acc out h
    replace h :
        (if ((acc.length : Nat) : Int) < count then
          (if format_gt (random_crockford 8 v) ∈ existing then
            genLoop count rest existing acc
          else
            genLoop count rest (insert (format_gt (random_crockford 8 v)) existing)
              (acc ++ [format_gt (random_crockford 8 v)]))
        else some acc) = some out := h
    by_cases hc : ((acc.length : Int) < count)
    · rw [if_pos hc] at h
      by_cases hmem : format_gt (random_crockford 8 v) ∈ existing
      · rw [if_pos hmem] at h
        obtain ⟨extra, hout, hnd, hfresh, horig, hlen⟩ := ih existing acc out h
        exact ⟨extra, hout, hnd, hfresh,
          fun c hcx => (horig c hcx).elim fun w hw => ⟨w, List.mem_cons_of_mem v hw.1, hw.2⟩,
          hlen⟩
      · rw [if_neg hmem] at h
        obtain ⟨extra, hout, hnd, hfresh, horig, hlen⟩ :=
          ih (insert (format_gt (random_crockford 8 v)) existing)
            (acc ++ [format_gt (random_crockford 8 v)]) out h
        refine ⟨format_gt (random_crockford 8 v) :: extra, ?_, ?_, ?_, ?_, ?_⟩
        · rw [hout, List.append_assoc]
          rfl
        · rw [List.nodup_cons]
          exact ⟨fun hin => hfresh _ hin (Finset.mem_insert_self _ _), hnd⟩
        · intro c hcx
          rcases List.mem_cons.mp hcx with rfl | hcx
          · exact hmem
          · exact fun hin => hfresh c hcx (Finset.mem_insert_of_mem hin)
        · intro c hcx
          rcases List.mem_cons.mp hcx with rfl | hcx
          · exact ⟨v, List.mem_cons_self v rest, rfl⟩
          · obtain ⟨w, hw, he⟩ := horig c hcx
            exact ⟨w, List.mem_cons_of_mem v hw, he⟩
        · have h1 : acc.length + 1 ≤ count.toNat := by omega
          rw [hlen, List.length_append, List.length_singleton,
            Nat.max_eq_right h1, Nat.max_eq_right (by omega)]
    · rw [if_neg hc] at h
      refine ⟨[], by simpa using (Option.some_injective _ h).symm, List.nodup_nil,
        by simp, by simp, ?_⟩
      have hle : count.toNat ≤ acc.length := by omega
      rw [← (Option.some_injective _ h), Nat.max_eq_left hle]

/-- C4: a run against an empty or missing file that returns normally
produces exactly `count` codes, pairwise distinct, each matching the
file-format regex over the 32-symbol alphabet — for every outcome of the
random source. -/
theorem generate_fresh_file_batch (count : Int) (file : Option (List PyStr))
    (draws : List Nat) (codes fileOut : List PyStr) (hcount : 1 ≤ count)
    (hfile : file = none ∨ file = some [])
    (h : generate count file draws = some (codes, fileOut)) :
    (codes.length : Int) = count ∧ codes.Nodup ∧ ∀ c ∈ codes, matches_gt c := by
  have hload : load_existing file = ∅ := by rcases hfile with rfl | rfl <;> rfl
  rw [generate, hload] at h
  cases hg : genLoop count draws (∅ : Finset PyStr) [] with
  | none => rw [hg] at h; exact absurd h (by simp)
  | some nc =>
    rw [hg] at h
    simp only [Option.map_some', Option.some.injEq, Prod.mk.injEq] at h
    obtain ⟨rfl, -⟩ := h
    obtain ⟨extra, hout, hnd, -, horig, hlen⟩ := genLoop_spec count draws ∅ [] nc hg
    rw [List.nil_append] at hout
    subst hout
    refine ⟨?_, hnd, ?_⟩
    · rw [hlen, List.length_nil, Nat.zero_max]
      omega
    · intro c hcx
      obtain ⟨w, -, rfl⟩ := horig c hcx
      exact format_rc_matches w

/-- Closed instance for `generate_fresh_file_batch`: one draw, fresh file. -/
theorem generate_fresh_file_batch_witness :
    (1 : Int) ≤ 1
      ∧ generate 1 none [0] = some (["GT-0000-0000".toList], ["GT-0000-0000".toList])
      ∧ (["GT-0000-0000".toList] : List PyStr).Nodup :=
  ⟨by decide, by decide,
    (generate_fresh_file_batch 1 none [0] ["GT-0000-0000".toList] ["GT-0000-0000".toList]
      (by decide) (Or.inl rfl) (by decide)).2.1⟩
